import Mathlib

/-!
Verification of the comic-archive library manager core (src/library.rs, src/main.rs).

Shallow embedding conventions:
* Rust `String`/`&str`/`PathBuf` are Lean `String` (paths are valid UTF-8, '/'-separated).
* `Uuid` is modelled by its hyphenated string form (`uuid::Uuid::new_v4` is an external
  random generator; a generated identifier is passed in as an explicit argument, with
  freshness as a hypothesis where a claim depends on it).
* `Arc<RwLock<Book>>` (`BookRef`) is an index into an explicit `Store` of `Book` cells;
  cloning an `Arc` copies the index (another alias of the same cell), and
  `derive(Clone)` on `Library` copies the version string and the vector of indices.
* `serde_json` documents are modelled at the JSON-value level (`Json`); the byte
  rendering/parsing of a JSON value is serde_json's, outside the embedded core.
* `tokio::fs` is a `World`: a path-indexed file map plus a write-failure flag.
* zip archives are lists of named entries whose `data` is `some bytes` when
  `read_to_end` succeeds and `none` when the entry's stream cannot be read
  (the `zip` crate's name map collapses duplicate names, so archives produced by
  `ZipArchive::new` have pairwise distinct entry names).
* the `image` crate's `load_from_memory` and `resize` are abstract parameters.
-/

/-! ### Byte/codepoint lexicographic string order (Rust `str` `Ord`)

Rust compares `&str` byte-wise; on valid UTF-8 this coincides with codepoint
order, embedded here as lexicographic order on `List Char`. -/

def lexLt : List Char → List Char → Bool
  | [], [] => false
  | [], _ :: _ => true
  | _ :: _, [] => false
  | c :: a, d :: b => if c < d then true else if d < c then false else lexLt a b

def lexLe : List Char → List Char → Bool
  | [], _ => true
  | _ :: _, [] => false
  | c :: a, d :: b => if c < d then true else if d < c then false else lexLe a b

def strLt (a b : String) : Bool := lexLt a.data b.data

def strLe (a b : String) : Bool := lexLe a.data b.data

theorem lexLe_cons_iff (x y : Char) (a b : List Char) :
    lexLe (x :: a) (y :: b) = true ↔ x < y ∨ (x = y ∧ lexLe a b = true) := by
  rcases lt_trichotomy x y with h | h | h
  · simp [lexLe, h]
  · subst h
    simp [lexLe, lt_irrefl]
  · have h2 : ¬ x < y := lt_asymm h
    have h3 : x ≠ y := ne_of_gt h
    simp [lexLe, h, h2, h3]

theorem lexLt_cons_iff (x y : Char) (a b : List Char) :
    lexLt (x :: a) (y :: b) = true ↔ x < y ∨ (x = y ∧ lexLt a b = true) := by
  rcases lt_trichotomy x y with h | h | h
  · simp [lexLt, h]
  · subst h
    simp [lexLt, lt_irrefl]
  · have h2 : ¬ x < y := lt_asymm h
    have h3 : x ≠ y := ne_of_gt h
    simp [lexLt, h, h2, h3]

theorem lexLe_refl (a : List Char) : lexLe a a = true := by
  induction a with
  | nil => rfl
  | cons c a ih => simp [lexLe_cons_iff, ih]

theorem lexLt_false_iff (a b : List Char) : lexLt a b = false ↔ lexLe b a = true := by
  induction a generalizing b with
  | nil => cases b <;> simp [lexLt, lexLe]
  | cons c a ih =>
    cases b with
    | nil => simp [lexLt, lexLe]
    | cons d b =>
      rw [Bool.eq_false_iff, Ne, lexLt_cons_iff, lexLe_cons_iff]
      constructor
      · intro h
        rcases lt_trichotomy d c with h1 | h1 | h1
        · exact Or.inl h1
        · subst h1
          refine Or.inr ⟨rfl, ?_⟩
          rw [← ih b, Bool.eq_false_iff, Ne]
          intro hab
          exact h (Or.inr ⟨rfl, hab⟩)
        · exact absurd (Or.inl h1) h
      · intro hR hL
        rcases hR with h1 | ⟨e1, h1⟩
        · rcases hL with h2 | ⟨e2, h2⟩
          · exact lt_asymm h1 h2
          · cases e2; exact lt_irrefl _ h1
        · rcases hL with h2 | ⟨e2, h2⟩
          · cases e1; exact lt_irrefl _ h2
          · have hf : lexLt a b = false := (ih b).mpr h1
            rw [h2] at hf
            cases hf

theorem lexLe_trans {a b c : List Char} (h1 : lexLe a b = true) (h2 : lexLe b c = true) :
    lexLe a c = true := by
  induction a generalizing b c with
  | nil => cases c <;> rfl
  | cons x a ih =>
    cases b with
    | nil => simp [lexLe] at h1
    | cons y b =>
      cases c with
      | nil => simp [lexLe] at h2
      | cons z c =>
        rw [lexLe_cons_iff] at h1 h2 ⊢
        rcases h1 with h1 | ⟨rfl, h1⟩
        · rcases h2 with h2 | ⟨rfl, h2⟩
          · exact Or.inl (lt_trans h1 h2)
          · exact Or.inl h1
        · rcases h2 with h2 | ⟨rfl, h2⟩
          · exact Or.inl h2
          · exact Or.inr ⟨rfl, ih h1 h2⟩

theorem lexLe_total (a b : List Char) : lexLe a b = true ∨ lexLe b a = true := by
  induction a generalizing b with
  | nil => left; cases b <;> rfl
  | cons c a ih =>
    cases b with
    | nil => right; rfl
    | cons d b =>
      rcases lt_trichotomy c d with h | h | h
      · left; rw [lexLe_cons_iff]; exact Or.inl h
      · subst h
        rcases ih b with h2 | h2
        · left; rw [lexLe_cons_iff]; exact Or.inr ⟨rfl, h2⟩
        · right; rw [lexLe_cons_iff]; exact Or.inr ⟨rfl, h2⟩
      · right; rw [lexLe_cons_iff]; exact Or.inl h

theorem lexLe_antisymm : ∀ {a b : List Char}, lexLe a b = true → lexLe b a = true → a = b
  | [], [], _, _ => rfl
  | [], _ :: _, _, h2 => by simp [lexLe] at h2
  | _ :: _, [], h1, _ => by simp [lexLe] at h1
  | x :: a, y :: b, h1, h2 => by
    rw [lexLe_cons_iff] at h1 h2
    rcases h1 with h1 | ⟨rfl, h1⟩
    · rcases h2 with h2 | ⟨rfl, h2⟩
      · exact absurd h2 (lt_asymm h1)
      · exact absurd h1 (lt_irrefl _)
    · rcases h2 with h2 | ⟨_, h2⟩
      · exact absurd h2 (lt_irrefl _)
      · rw [lexLe_antisymm h1 h2]

theorem strLe_trans {a b c : String} (h1 : strLe a b = true) (h2 : strLe b c = true) :
    strLe a c = true := lexLe_trans h1 h2

theorem strLe_total (a b : String) : strLe a b = true ∨ strLe b a = true := lexLe_total _ _

theorem strLt_false_iff (a b : String) : strLt a b = false ↔ strLe b a = true :=
  lexLt_false_iff _ _

theorem strLe_antisymm {a b : String} (h1 : strLe a b = true) (h2 : strLe b a = true) :
    a = b := by
  cases a; cases b
  exact congrArg String.mk (lexLe_antisymm h1 h2)

/-- The `Prop`-valued order used with `List.insertionSort` (the model of Rust's
stable `Vec::sort`, which sorts by `Ord` on `String`). -/
def StrLeP (a b : String) : Prop := strLe a b = true

instance : DecidableRel StrLeP := fun a b => instDecidableEqBool (strLe a b) true

instance : IsTotal String StrLeP := ⟨strLe_total⟩

instance : IsTrans String StrLeP := ⟨fun _ _ _ => strLe_trans⟩

/-- Rust's `names.sort()` on a vector of strings: a stable sort under byte-wise
string order, modelled with `List.insertionSort`. -/
def sortStrings (l : List String) : List String := l.insertionSort StrLeP

/-! ### Path helpers (Rust `std::path` on '/'-separated UTF-8 paths) -/

/-- Split a character list on a separator; always returns at least one (possibly
empty) group, like Rust's path component splitting. -/
def splitOnChar (sep : Char) : List Char → List (List Char)
  | [] => [[]]
  | c :: rest =>
    match splitOnChar sep rest with
    | [] => [[]]
    | g :: gs => if c = sep then [] :: g :: gs else (c :: g) :: gs

/-- The normal components of a path: split on '/', dropping empty components and
`.` components (Rust's `Components` skips both). -/
def pathComponents (s : String) : List String :=
  ((splitOnChar '/' s.data).map String.mk).filter (fun c => c != "" && c != ".")

/-- Rust `Path::file_name`: the final normal component; `None` when the path ends
in `..` or has no normal component. -/
def fileName (s : String) : Option String :=
  match (pathComponents s).getLast? with
  | none => none
  | some c => if c = ".." then none else some c

/-- Drop the final `.`-separated extension of a file name known to contain a dot
(everything from the last '.' on). -/
def dropLastExt (l : List Char) : List Char :=
  ((l.reverse.dropWhile (fun c => c ≠ '.')).drop 1).reverse

/-- The characters after the last '.' of a name. -/
def afterLastDot (l : List Char) : List Char :=
  (l.reverse.takeWhile (fun c => c ≠ '.')).reverse

/-- Rust `str::to_lowercase`, character-wise (ASCII case mapping; Unicode
special casing does not affect '.', '/', or the ASCII extensions compared
against). -/
def toLowercase (s : String) : String := String.mk (s.data.map Char.toLower)

/-- Rust `Path::file_stem`: the file name up to (not including) its last '.',
except that a leading '.' does not begin an extension. -/
def fileStem (s : String) : Option String :=
  (fileName s).map fun n =>
    match n.data with
    | [] => String.mk []
    | c :: rest => if '.' ∈ rest then String.mk (c :: dropLastExt rest) else n

/-! ### The `Book` record (src/library.rs) -/

/-- A `Book` record. Field order follows the Rust struct declaration (the order
serde serializes the fields in). -/
structure Book where
  id : String
  author : Option String
  path : String
  tags : List String
  title : Option String
deriving Repr, DecidableEq

/-- Book::new: fresh record with no author/title/tags; the id is the value
produced by `Uuid::new_v4()`, passed in explicitly. -/
def Book.new (newId : String) (path : String) : Book :=
  { id := newId, author := none, path := path, tags := [], title := none }

def Book.get_id (b : Book) : String := b.id

def Book.get_path (b : Book) : String := b.path

/-- Book::get_title: the stored title, else the path's file stem, else "". -/
def Book.get_title (b : Book) : String :=
  ((b.title).or (fileStem b.path)).getD ""

def Book.set_title (b : Book) (title : String) : Book := { b with title := some title }

def Book.get_author (b : Book) : String := (b.author).getD ""

def Book.set_author (b : Book) (author : String) : Book := { b with author := some author }

/-! ### The persisted JSON document (serde_json values) -/

/-- JSON values, restricted to the shapes the persisted document uses. -/
inductive Json where
  | null : Json
  | str : String → Json
  | arr : List Json → Json
  | obj : List (String × Json) → Json

/-- serde serialization of an `Option<String>` field. -/
def optStrToJson : Option String → Json
  | none => Json.null
  | some s => Json.str s

/-- serde serialization of a `Book` (derive(Serialize), declaration field order). -/
def Book.toJson (b : Book) : Json :=
  Json.obj [("id", Json.str b.id), ("author", optStrToJson b.author),
    ("path", Json.str b.path), ("tags", Json.arr (b.tags.map Json.str)),
    ("title", optStrToJson b.title)]

/-- The dereferenced content of a `Library`: its version and the `Book` values
its shared references point at (what serde reads through the `Arc<RwLock<_>>`
cells when serializing, and what deserializing reconstructs into fresh cells). -/
structure LibraryData where
  version : String
  books : List Book
deriving Repr, DecidableEq

/-- serde serialization of a `Library` (derive(Serialize), declaration field order),
as a function of its dereferenced content. -/
def libraryDataToJson (d : LibraryData) : Json :=
  Json.obj [("version", Json.str d.version),
    ("books", Json.arr (d.books.map Book.toJson))]

/-- Look up a field of a JSON object by name (serde derive field matching;
unknown fields are ignored, a missing field is an error). -/
def jsonField (fields : List (String × Json)) (key : String) : Except String Json :=
  match fields.find? (fun p => p.1 == key) with
  | some p => Except.ok p.2
  | none => Except.error "missing field"

/-- Deserialize a JSON value as a string. -/
def Json.asStr : Json → Except String String
  | Json.str s => Except.ok s
  | _ => Except.error "expected a string"

/-- Deserialize a JSON value as an optional string. -/
def Json.asOptStr : Json → Except String (Option String)
  | Json.null => Except.ok none
  | Json.str s => Except.ok (some s)
  | _ => Except.error "expected a string or null"

/-- Deserialize a JSON value as an array of strings. -/
def Json.asStrList : Json → Except String (List String)
  | Json.arr xs => xs.mapM Json.asStr
  | _ => Except.error "expected an array"

/-- serde deserialization of a `Book` (derive(Deserialize)). -/
def Book.fromJson : Json → Except String Book
  | Json.obj fields => do
    let id ← (← jsonField fields "id").asStr
    let author ← (← jsonField fields "author").asOptStr
    let path ← (← jsonField fields "path").asStr
    let tags ← (← jsonField fields "tags").asStrList
    let title ← (← jsonField fields "title").asOptStr
    Except.ok { id := id, author := author, path := path, tags := tags, title := title }
  | _ => Except.error "expected an object"

/-- serde deserialization of the persisted `Library` document
(`serde_json::from_slice`), at the level of its dereferenced content. -/
def libraryDataFromJson : Json → Except String LibraryData
  | Json.obj fields => do
    let version ← (← jsonField fields "version").asStr
    let books ←
      match ← jsonField fields "books" with
      | Json.arr xs => xs.mapM Book.fromJson
      | _ => Except.error "expected an array"
    Except.ok { version := version, books := books }
  | _ => Except.error "expected an object"

/-! ### Shared `Book` cells (`Arc<RwLock<Book>>`) and the `Library` -/

/-- An alias to one shared mutable `Book` cell: an index into the store. -/
abbrev BookRef := Nat

/-- The heap of shared `Book` cells. -/
structure Store where
  cells : List Book
deriving Repr, DecidableEq

/-- Read through a shared reference (`book.read().unwrap()`). -/
def Store.read (st : Store) (r : BookRef) : Option Book := st.cells[r]?

/-- Write through a shared reference (`book.write().unwrap()` followed by a
mutation `f`); a dangling index leaves the store unchanged (unreachable with
`Arc`-managed cells). -/
def Store.mutate (st : Store) (r : BookRef) (f : Book → Book) : Store :=
  match st.read r with
  | some b => { cells := st.cells.set r (f b) }
  | none => st

/-- The `Library`: a version tag and the ordered vector of shared references.
`derive(Clone)` copies the version string and the vector; the elements are
`Arc` clones, i.e. the same cell indices. -/
structure Library where
  version : String
  books : List BookRef
deriving Repr, DecidableEq

/-- Library::clone (the `self.library.clone()` taken for a save): a new vector
holding aliases of the same cells, so the identity on this representation. -/
def Library.clone (lib : Library) : Library := lib

/-- Library::default. -/
def Library.default : Library := { version := "1.0", books := [] }

/-- Dereference all shared references of a library (what serde's `Serialize`
reads; `none` only if a reference dangles, impossible with `Arc`). -/
def Library.resolve (st : Store) (lib : Library) : Option LibraryData :=
  (lib.books.mapM st.read).map (fun bs => { version := lib.version, books := bs })

/-- Library::to_json_bytes: `serde_json::to_vec_pretty(self)`; serde reads every
book cell at serialization time. The error branch mirrors the
"Unable to serialize library" arm (unreachable for this data shape). -/
def Library.to_json_bytes (st : Store) (lib : Library) : Except String Json :=
  match lib.resolve st with
  | some d => Except.ok (libraryDataToJson d)
  | none => Except.error "Unable to serialize library"

/-- Library::get_books: the live ordered collection of shared references. -/
def Library.get_books (lib : Library) : List BookRef := lib.books

/-- Library::add_book: allocate a fresh cell holding `Book::new`, push one alias
onto `books`, return another alias of the same cell. -/
def Library.add_book (st : Store) (lib : Library) (path : String) (newId : String) :
    Store × Library × BookRef :=
  let r := st.cells.length
  ({ cells := st.cells ++ [Book.new newId path] },
   { lib with books := lib.books ++ [r] }, r)

/-- Library::get_book: linear scan comparing ids. -/
def Library.get_book (st : Store) (lib : Library) (id : String) : Option BookRef :=
  lib.books.find? (fun r => match st.read r with
    | some b => b.id == id
    | none => false)

/-! ### The filesystem (`tokio::fs`) and load/save -/

/-- The environment of `Library::load`/`Library::save`: the files on disk (at the
JSON-value level) and whether a write would fail. -/
structure World where
  files : List (String × Json)
  writeFails : Bool

/-- tokio::fs::read (success is the parsed-at-byte-level JSON value; `none`
covers a missing or unreadable file). -/
def World.read (w : World) (path : String) : Option Json :=
  (w.files.find? (fun p => p.1 == path)).map (fun p => p.2)

/-- tokio::fs::write: overwrite the file at `path`. -/
def World.write (w : World) (path : String) (content : Json) : World :=
  { w with files := (path, content) :: w.files.filter (fun p => p.1 != path) }

/-- Library::save: serialize (through the live cells), then write; a failing
write reports "Unable to save library file". A failed attempt leaves the world
unchanged. -/
def Library.save (st : Store) (lib : Library) (path : String) (w : World) :
    Except String Unit × World :=
  match lib.to_json_bytes st with
  | Except.error e => (Except.error e, w)
  | Except.ok json =>
    if w.writeFails then (Except.error "Unable to save library file", w)
    else (Except.ok (), w.write path json)

/-- Allocate fresh cells for deserialized books (serde's `Deserialize` for
`Vec<Arc<RwLock<Book>>>` wraps each parsed `Book` in a new cell). -/
def allocBooks : Store → List Book → Store × List BookRef
  | st, [] => (st, [])
  | st, b :: bs =>
    let r := st.cells.length
    let (st', rs) := allocBooks { cells := st.cells ++ [b] } bs
    (st', r :: rs)

/-- Library::load: read and parse `path`; on a failed read, save a default
library to `path` and return it. Parse failure reports
"Unable to parse JSON file" and touches nothing. -/
def Library.load (path : String) (st : Store) (w : World) :
    Except String Library × Store × World :=
  match w.read path with
  | some content =>
    match libraryDataFromJson content with
    | Except.ok d =>
      let (st', refs) := allocBooks st d.books
      (Except.ok { version := d.version, books := refs }, st', w)
    | Except.error _ => (Except.error "Unable to parse JSON file", st, w)
  | none =>
    let lib := Library.default
    match Library.save st lib.clone path w with
    | (Except.ok _, w') => (Except.ok lib, st, w')
    | (Except.error e, w') => (Except.error e, st, w')

/-! ### The archive image service (zip + image crates) -/

/-- Raw bytes of an archive entry. -/
abbrev Bytes := List Nat

/-- One zip entry: its raw name and, when `read_to_end` succeeds on its stream,
its bytes (`none`: reading the entry fails, e.g. a corrupt deflate stream). -/
structure ZipEntry where
  name : String
  data : Option Bytes

/-- A validated zip container (`ZipArchive::new` succeeded). The `zip` crate's
name map makes entry names pairwise distinct in archives it accepts. -/
structure ZipArchive where
  entries : List ZipEntry

/-- ZipArchive::file_names (iteration order is irrelevant to the code, which
sorts or takes a minimum). -/
def ZipArchive.file_names (a : ZipArchive) : List String :=
  a.entries.map (fun e => e.name)

/-- ZipArchive::by_name. -/
def ZipArchive.by_name (a : ZipArchive) (n : String) : Option ZipEntry :=
  a.entries.find? (fun e => e.name == n)

/-- The result of opening and validating a book's archive file: `openFail` is
`File::open` failing, `parseFail` is `ZipArchive::new` failing. -/
inductive ZipSource where
  | openFail : ZipSource
  | parseFail : ZipSource
  | ok : ZipArchive → ZipSource

/-- An `iced` image handle: either explicit RGBA pixels with dimensions
(`from_pixels`) or undecoded bytes handed to the renderer (`from_memory`). -/
inductive ImageHandle where
  | from_pixels : Nat → Nat → List Nat → ImageHandle
  | from_memory : Bytes → ImageHandle
deriving DecidableEq, Repr

/-- A decoded raster image from the `image` crate. -/
structure DynamicImage where
  width : Nat
  height : Nat
  rgba : List Nat
deriving DecidableEq, Repr

/-- supported_images_filter: the base file name, lowercased, must not start with
a period and must end with ".png", ".jpg" or ".jpeg". -/
def supported_images_filter (filename : String) : Bool :=
  match fileName filename with
  | none => false
  | some f0 =>
    let f := (toLowercase f0).data
    !(decide (f.head? = some '.')) &&
      (".png".data.isSuffixOf f || ".jpg".data.isSuffixOf f || ".jpeg".data.isSuffixOf f)

/-- The reduce step of load_cover_image: keep the smaller string
(`if f < res { f } else { res }`). -/
def minStep (res f : String) : String := if strLt f res then f else res

/-- The filename load_cover_image selects: the `reduce` of the eligible names
with `minStep` (`Iterator::reduce` over the filtered names). -/
def cover_first (a : ZipArchive) : Option String :=
  match a.file_names.filter supported_images_filter with
  | [] => none
  | x :: xs => some (xs.foldl minStep x)

/-- The tail of load_cover_image: fetch the selected entry by name, read its
bytes, decode them (`image::load_from_memory`, the abstract `decode`), resize to
fit 250x350 (`resize`, an abstract function of the decoded image), and return
an RGBA pixel buffer. The `by_name` miss arm is the `.expect` panic, modelled
as an error distinct from every `Err` message. -/
def cover_decode_entry (decode : Bytes → Option DynamicImage)
    (resize : DynamicImage → DynamicImage) (a : ZipArchive) (first : String) :
    Except String ImageHandle :=
  match a.by_name first with
  | none => Except.error "panic: First file should be present"
  | some file =>
    match file.data with
    | none => Except.error "Unable to read bytes"
    | some b =>
      match decode b with
      | none => Except.error "Unable to processes image"
      | some img =>
        let img2 := resize img
        Except.ok (ImageHandle.from_pixels img2.width img2.height img2.rgba)

/-- load_cover_image. -/
def load_cover_image (decode : Bytes → Option DynamicImage)
    (resize : DynamicImage → DynamicImage) (src : ZipSource) : Except String ImageHandle :=
  match src with
  | ZipSource.openFail => Except.error "Failed to read cbz file"
  | ZipSource.parseFail => Except.error "Unable to process cbz file"
  | ZipSource.ok a =>
    match cover_first a with
    | none => Except.error "Unable to find an image in the cbz file"
    | some first => cover_decode_entry decode resize a first

/-- BookImageContext: the opened archive and the sorted eligible file names. -/
structure BookImageContext where
  archive : ZipArchive
  filenames : List String

/-- BookImageContext::new. -/
def BookImageContext.new (archive : ZipArchive) (filenames : List String) :
    BookImageContext :=
  { archive := archive, filenames := filenames }

/-- BookImageContext::len. -/
def BookImageContext.len (c : BookImageContext) : Nat := c.filenames.length

/-- BookImageContext::is_empty. -/
def BookImageContext.is_empty (c : BookImageContext) : Bool := c.filenames.isEmpty

/-- get_book_image_context: open and validate the archive, collect the eligible
names, sort them. -/
def get_book_image_context (src : ZipSource) : Except String BookImageContext :=
  match src with
  | ZipSource.openFail => Except.error "Failed to read cbz file"
  | ZipSource.parseFail => Except.error "Unable to process cbz file"
  | ZipSource.ok a =>
    let names := sortStrings (a.file_names.filter supported_images_filter)
    Except.ok (BookImageContext.new a names)

/-- load_image: decode-on-demand for index `index`; an out-of-range index
reports "Selected image not found"; the bytes are wrapped undecoded and at full
resolution in `Handle::from_memory`. -/
def load_image (context : BookImageContext) (index : Nat) : Except String ImageHandle :=
  match context.filenames[index]? with
  | none => Except.error "Selected image not found"
  | some filename =>
    match context.archive.by_name filename with
    | none => Except.error "panic: First file should be present"
    | some img_file =>
      match img_file.data with
      | none => Except.error "Unable to read bytes"
      | some b => Except.ok (ImageHandle.from_memory b)

/-- load_images: build the context, load every index in order, skip (log) the
failures; error "No images loaded" when nothing succeeded. -/
def load_images (src : ZipSource) : Except String (List ImageHandle) :=
  match get_book_image_context src with
  | Except.error e => Except.error e
  | Except.ok context =>
    let images := (List.range context.len).filterMap
      (fun index => (load_image context index).toOption)
    if images.isEmpty then Except.error "No images loaded"
    else Except.ok images

/-! ## Claim theorems -/

/-- C10: once `set_title t` has been called on a book, `get_title` returns
exactly `t` — for every string `t`, including the empty string; the
filename-stem fallback never applies to a set title. -/
theorem get_title_after_set_title (b : Book) (t : String) :
    (b.set_title t).get_title = t := rfl

/-- C9: `add_book path` appends a freshly allocated cell holding a `Book` with
the supplied (fresh) id and no title or author as the new last element of
`books`, and returns an alias of that same appended cell; the returned handle's
id is immediately readable, its derived title is the path's file stem, existing
cells are untouched, and the new id differs from every existing book's id. -/
theorem add_book_spec (st : Store) (lib : Library) (path : String) (newId : String)
    (hv : ∀ r ∈ lib.books, r < st.cells.length)
    (hfresh : ∀ r ∈ lib.books, ∀ b, st.read r = some b → b.id ≠ newId) :
    let st' := (Library.add_book st lib path newId).1
    let lib' := (Library.add_book st lib path newId).2.1
    let ref := (Library.add_book st lib path newId).2.2
    lib'.books = lib.books ++ [ref]
    ∧ lib'.books.getLast? = some ref
    ∧ st'.read ref = some (Book.new newId path)
    ∧ (Book.new newId path).title = none
    ∧ (Book.new newId path).author = none
    ∧ (Book.new newId path).get_id = newId
    ∧ (∀ s, fileStem path = some s → (Book.new newId path).get_title = s)
    ∧ (∀ r ∈ lib.books, st'.read r = st.read r)
    ∧ (∀ r ∈ lib.books, ∀ b, st'.read r = some b → b.id ≠ (Book.new newId path).id) := by
  intro st' lib' ref
  refine ⟨rfl, ?_, ?_, rfl, rfl, rfl, ?_, ?_, ?_⟩
  · exact List.getLast?_concat _
  · exact List.getElem?_concat_length _ _
  · intro s hs
    simp [Book.get_title, Book.new, hs]
  · intro r hr
    exact List.getElem?_append_left (hv r hr)
  · intro r hr b hb
    have hb' : st.read r = some b := by
      rw [← hb]
      exact (List.getElem?_append_left (hv r hr)).symm
    exact hfresh r hr b hb'

/-- C9 witness: a concrete `add_book` on an empty library. -/
theorem add_book_spec_witness :
    (Library.add_book { cells := [] } Library.default "shelf/mybook.cbz" "id-0").2.1.books
      = Library.default.books
        ++ [(Library.add_book { cells := [] } Library.default "shelf/mybook.cbz" "id-0").2.2]
    ∧ (Book.new "id-0" "shelf/mybook.cbz").get_title = "mybook" := by
  have h := add_book_spec { cells := [] } Library.default "shelf/mybook.cbz" "id-0"
    (by intro r hr; simp [Library.default] at hr)
    (by intro r hr; simp [Library.default] at hr)
  exact ⟨h.1, h.2.2.2.2.2.2.1 "mybook" (by decide)⟩

/-! ### Character-level facts about lowercasing and extensions (toward C5) -/

theorem char_toNat_ofNat (n : Nat) (h : n < 55296) : (Char.ofNat n).toNat = n := by
  rw [Char.ofNat, dif_pos (Or.inl h : n.isValidChar)]
  simp [Char.ofNatAux, Char.toNat, UInt32.toNat]

theorem toLower_eq_dot_iff (c : Char) : c.toLower = '.' ↔ c = '.' := by
  constructor
  · intro h
    unfold Char.toLower at h
    simp only [] at h
    split at h
    · exfalso
      rename_i hn
      have hv : (Char.ofNat (c.toNat + 32)).toNat = c.toNat + 32 :=
        char_toNat_ofNat _ (by omega)
      rw [h] at hv
      have hd : ('.').toNat = 46 := rfl
      omega
    · exact h
  · intro h
    subst h
    rfl

theorem toLower_map_head_dot (l : List Char) :
    (l.map Char.toLower).head? = some '.' ↔ l.head? = some '.' := by
  cases l with
  | nil => simp
  | cons c t => simp [toLower_eq_dot_iff]

theorem dot_mem_map_toLower (l : List Char) : '.' ∈ l.map Char.toLower ↔ '.' ∈ l := by
  rw [List.mem_map]
  constructor
  · rintro ⟨c, hc, h⟩
    rw [toLower_eq_dot_iff] at h
    subst h
    exact hc
  · intro h
    exact ⟨'.', h, rfl⟩

theorem afterLastDot_map_toLower (l : List Char) :
    afterLastDot (l.map Char.toLower) = (afterLastDot l).map Char.toLower := by
  unfold afterLastDot
  rw [← List.map_reverse, List.takeWhile_map, ← List.map_reverse]
  have hp : ((fun c : Char => decide (c ≠ '.')) ∘ Char.toLower)
      = (fun c : Char => decide (c ≠ '.')) := by
    funext c
    simp only [Function.comp]
    rw [decide_eq_decide]
    exact not_congr (toLower_eq_dot_iff c)
  rw [hp]

theorem prefix_append_dot_iff (R : List Char) : ∀ s : List Char, '.' ∉ s →
    ((s ++ ['.']) <+: R ↔ ('.' ∈ R ∧ R.takeWhile (fun c => c ≠ '.') = s)) := by
  induction R with
  | nil =>
    intro s _
    constructor
    · intro h
      have hlen := h.length_le
      simp at hlen
    · rintro ⟨h, -⟩
      simp at h
  | cons c R ih =>
    intro s hs
    cases s with
    | nil =>
      simp only [List.nil_append]
      constructor
      · intro h
        rw [List.cons_prefix_cons] at h
        obtain ⟨he, -⟩ := h
        subst he
        exact ⟨List.mem_cons_self _ _, List.takeWhile_cons_of_neg (by simp)⟩
      · rintro ⟨hmem, htw⟩
        by_cases hc : c = '.'
        · subst hc
          rw [List.cons_prefix_cons]
          exact ⟨rfl, List.nil_prefix⟩
        · rw [List.takeWhile_cons_of_pos (by simp [hc])] at htw
          cases htw
    | cons d s' =>
      have hd : d ≠ '.' := fun h => hs (h ▸ List.mem_cons_self d s')
      have hs' : '.' ∉ s' := fun h => hs (List.mem_cons_of_mem d h)
      constructor
      · intro h
        rw [List.cons_append, List.cons_prefix_cons] at h
        obtain ⟨he, h2⟩ := h
        subst he
        obtain ⟨hmem, htw⟩ := (ih s' hs').mp h2
        refine ⟨List.mem_cons_of_mem _ hmem, ?_⟩
        rw [List.takeWhile_cons_of_pos (by simp [hd]), htw]
      · rintro ⟨hmem, htw⟩
        by_cases hc : c = '.'
        · subst hc
          rw [List.takeWhile_cons_of_neg (by simp)] at htw
          cases htw
        · rw [List.takeWhile_cons_of_pos (by simp [hc])] at htw
          rw [List.cons.injEq] at htw
          obtain ⟨he, htw⟩ := htw
          subst he
          have hmem' : '.' ∈ R := by
            rcases List.mem_cons.mp hmem with h | h
            · exact absurd h.symm hc
            · exact h
          rw [List.cons_append, List.cons_prefix_cons]
          exact ⟨rfl, (ih s' hs').mpr ⟨hmem', htw⟩⟩

theorem isSuffixOf_dot_iff (L suf : List Char) (hs : '.' ∉ suf) :
    ('.' :: suf).isSuffixOf L = true ↔ ('.' ∈ L ∧ afterLastDot L = suf) := by
  rw [List.isSuffixOf_iff_suffix, ← List.reverse_prefix, List.reverse_cons,
    prefix_append_dot_iff _ _ (by simpa using hs)]
  rw [List.mem_reverse]
  constructor
  · rintro ⟨h1, h2⟩
    refine ⟨h1, ?_⟩
    unfold afterLastDot
    rw [h2, List.reverse_reverse]
  · rintro ⟨h1, h2⟩
    refine ⟨h1, ?_⟩
    unfold afterLastDot at h2
    rw [← h2, List.reverse_reverse]

theorem isSuffixOf_map_toLower_iff (b : List Char) (suf : List Char) (hs : '.' ∉ suf) :
    ('.' :: suf).isSuffixOf (b.map Char.toLower) = true
      ↔ ('.' ∈ b ∧ (afterLastDot b).map Char.toLower = suf) := by
  rw [isSuffixOf_dot_iff _ _ hs, dot_mem_map_toLower, afterLastDot_map_toLower]

/-! ### The spec's formulation of eligibility (C5) -/

theorem toLowercase_data (s : String) : (toLowercase s).data = s.data.map Char.toLower := rfl

/-- The extension of a base file name as the spec words it: the part after the
last '.', when the name contains one. -/
def extensionOfName (f : String) : Option String :=
  if '.' ∈ f.data then some (String.mk (afterLastDot f.data)) else none

/-- The spec's eligibility predicate, stated in its own words: the base filename
(the path component after the last separator) does not start with a period, and
its lowercased extension is one of png, jpg, jpeg. -/
def spec_eligible_entry (filename : String) : Bool :=
  match fileName filename with
  | none => false
  | some b =>
    !(decide (b.data.head? = some '.')) &&
      (match extensionOfName b with
       | some e =>
         toLowercase e == "png" || toLowercase e == "jpg" || toLowercase e == "jpeg"
       | none => false)

theorem supported_eq_spec (s : String) :
    supported_images_filter s = spec_eligible_entry s := by
  unfold supported_images_filter spec_eligible_entry
  cases hfn : fileName s with
  | none => rfl
  | some b =>
    have hhead : ((b.data.map Char.toLower).head? = some '.') ↔ (b.data.head? = some '.') :=
      toLower_map_head_dot b.data
    have h1 : (".png".data.isSuffixOf (b.data.map Char.toLower) = true)
        ↔ ('.' ∈ b.data ∧ (afterLastDot b.data).map Char.toLower = ['p', 'n', 'g']) := by
      have he : ".png".data = '.' :: ['p', 'n', 'g'] := rfl
      rw [he]
      exact isSuffixOf_map_toLower_iff b.data ['p', 'n', 'g'] (by decide)
    have h2 : (".jpg".data.isSuffixOf (b.data.map Char.toLower) = true)
        ↔ ('.' ∈ b.data ∧ (afterLastDot b.data).map Char.toLower = ['j', 'p', 'g']) := by
      have he : ".jpg".data = '.' :: ['j', 'p', 'g'] := rfl
      rw [he]
      exact isSuffixOf_map_toLower_iff b.data ['j', 'p', 'g'] (by decide)
    have h3 : (".jpeg".data.isSuffixOf (b.data.map Char.toLower) = true)
        ↔ ('.' ∈ b.data ∧ (afterLastDot b.data).map Char.toLower = ['j', 'p', 'e', 'g']) := by
      have he : ".jpeg".data = '.' :: ['j', 'p', 'e', 'g'] := rfl
      rw [he]
      exact isSuffixOf_map_toLower_iff b.data ['j', 'p', 'e', 'g'] (by decide)
    rw [Bool.eq_iff_iff]
    simp only [Bool.and_eq_true, Bool.or_eq_true, Bool.not_eq_true',
      decide_eq_false_iff_not, toLowercase_data]
    rw [hhead, h1, h2, h3]
    by_cases hdot : '.' ∈ b.data
    · have e1 : ((toLowercase (String.mk (afterLastDot b.data)) == "png") = true)
          ↔ ((afterLastDot b.data).map Char.toLower = ['p', 'n', 'g']) := by
        rw [beq_iff_eq, String.ext_iff, toLowercase_data]
      have e2 : ((toLowercase (String.mk (afterLastDot b.data)) == "jpg") = true)
          ↔ ((afterLastDot b.data).map Char.toLower = ['j', 'p', 'g']) := by
        rw [beq_iff_eq, String.ext_iff, toLowercase_data]
      have e3 : ((toLowercase (String.mk (afterLastDot b.data)) == "jpeg") = true)
          ↔ ((afterLastDot b.data).map Char.toLower = ['j', 'p', 'e', 'g']) := by
        rw [beq_iff_eq, String.ext_iff, toLowercase_data]
      simp only [extensionOfName, if_pos hdot, Bool.or_eq_true]
      rw [e1, e2, e3]
      simp [hdot]
    · simp only [extensionOfName, if_neg hdot]
      simp [hdot]

/-- C5: an archive entry is eligible iff its base filename does not start with a
period and its lowercased extension is png, jpg or jpeg; on the entry set
["b.png", "A.JPG", ".hidden.png", "c.txt"] exactly {"b.png", "A.JPG"} are
eligible; and cover selection and the (shared) context construction behind
full-sequence and indexed loading all consume exactly the
`supported_images_filter`-filtered entry names. -/
theorem eligibility_matches_spec :
    (∀ s, supported_images_filter s = spec_eligible_entry s)
    ∧ (["b.png", "A.JPG", ".hidden.png", "c.txt"].filter supported_images_filter
        = ["b.png", "A.JPG"])
    ∧ (∀ a, get_book_image_context (ZipSource.ok a)
        = Except.ok (BookImageContext.new a
            (sortStrings (a.file_names.filter supported_images_filter))))
    ∧ (∀ a, cover_first a
        = (match a.file_names.filter supported_images_filter with
           | [] => none
           | x :: xs => some (xs.foldl minStep x))) :=
  ⟨supported_eq_spec, by decide, fun _ => rfl, fun _ => rfl⟩

/-! ### Cover selection is the lexicographic minimum (C4) -/

theorem lexLt_imp_le : ∀ {a b : List Char}, lexLt a b = true → lexLe a b = true
  | [], [], h => by cases h
  | [], _ :: _, _ => rfl
  | _ :: _, [], h => by simp [lexLt] at h
  | x :: a, y :: b, h => by
    rw [lexLt_cons_iff] at h
    rw [lexLe_cons_iff]
    rcases h with h | ⟨e, h⟩
    · exact Or.inl h
    · exact Or.inr ⟨e, lexLt_imp_le h⟩

/-- The `reduce` of load_cover_image computes a member of the candidate list that
is below every candidate in the byte-wise string order. -/
theorem foldl_minStep_spec (xs : List String) (x : String) :
    (xs.foldl minStep x ∈ x :: xs)
    ∧ (∀ y ∈ x :: xs, strLe (xs.foldl minStep x) y = true) := by
  induction xs generalizing x with
  | nil =>
    refine ⟨List.mem_cons_self _ _, ?_⟩
    intro y hy
    rcases List.mem_cons.mp hy with he | h
    · rw [he]
      exact lexLe_refl _
    · cases h
  | cons f rest ih =>
    by_cases hlt : strLt f x = true
    · have hfx : strLe f x = true := lexLt_imp_le hlt
      have hfold : (f :: rest).foldl minStep x = rest.foldl minStep f := by
        show rest.foldl minStep (minStep x f) = rest.foldl minStep f
        rw [minStep, if_pos hlt]
      obtain ⟨ihm, ihle⟩ := ih f
      rw [hfold]
      refine ⟨List.mem_cons_of_mem _ ihm, ?_⟩
      intro y hy
      rcases List.mem_cons.mp hy with he | hy2
      · rw [he]
        exact strLe_trans (ihle f (List.mem_cons_self _ _)) hfx
      · exact ihle y hy2
    · have hxf : strLe x f = true := (strLt_false_iff f x).mp (Bool.eq_false_iff.mpr hlt)
      have hfold : (f :: rest).foldl minStep x = rest.foldl minStep x := by
        show rest.foldl minStep (minStep x f) = rest.foldl minStep x
        rw [minStep, if_neg hlt]
      obtain ⟨ihm, ihle⟩ := ih x
      rw [hfold]
      constructor
      · rcases List.mem_cons.mp ihm with he | hm
        · rw [List.mem_cons]
          exact Or.inl he
        · exact List.mem_cons_of_mem _ (List.mem_cons_of_mem _ hm)
      · intro y hy
        rcases List.mem_cons.mp hy with he | hy2
        · rw [he]
          exact ihle x (List.mem_cons_self _ _)
        · rcases List.mem_cons.mp hy2 with he | hy3
          · rw [he]
            exact strLe_trans (ihle x (List.mem_cons_self _ _)) hxf
          · exact ihle y (List.mem_cons_of_mem _ hy3)

/-- C4: among the eligible entries, `load_cover_image` selects the
lexicographically smallest raw filename under the case-sensitive byte/codepoint
order (no normalization) and proceeds to decode exactly that entry; with no
eligible entry it fails with "Unable to find an image in the cbz file"
(NotFoundError). -/
theorem cover_selects_lex_min (decode : Bytes → Option DynamicImage)
    (resize : DynamicImage → DynamicImage) (a : ZipArchive) :
    (a.file_names.filter supported_images_filter = [] →
      load_cover_image decode resize (ZipSource.ok a)
        = Except.error "Unable to find an image in the cbz file")
    ∧ (∀ m, cover_first a = some m →
        m ∈ a.file_names.filter supported_images_filter
        ∧ (∀ x ∈ a.file_names.filter supported_images_filter, strLe m x = true)
        ∧ load_cover_image decode resize (ZipSource.ok a)
            = cover_decode_entry decode resize a m) := by
  constructor
  · intro h
    have hcf : cover_first a = none := by
      unfold cover_first
      rw [h]
    simp only [load_cover_image, hcf]
  · intro m hm
    have hload : load_cover_image decode resize (ZipSource.ok a)
        = cover_decode_entry decode resize a m := by
      simp only [load_cover_image, hm]
    unfold cover_first at hm
    cases hfl : a.file_names.filter supported_images_filter with
    | nil =>
      rw [hfl] at hm
      cases hm
    | cons x xs =>
      rw [hfl] at hm
      have hm2 : xs.foldl minStep x = m := by
        simpa using hm
      obtain ⟨hmem, hle⟩ := foldl_minStep_spec xs x
      rw [hm2] at hmem hle
      exact ⟨hmem, hle, hload⟩

/-- Shared concrete fixtures for witnesses. -/
def sampleDecode : Bytes → Option DynamicImage := fun _ => none

def sampleResize : DynamicImage → DynamicImage := fun i => i

/-- The spec's cover tie-break example entries (entry data irrelevant). -/
def sampleArchive : ZipArchive :=
  { entries := [{ name := "b.png", data := some [1] }, { name := "A.JPG", data := some [2] },
      { name := ".hidden.png", data := some [3] }, { name := "c.txt", data := some [4] }] }

/-- An archive with no eligible entry. -/
def sampleArchiveNoImages : ZipArchive :=
  { entries := [{ name := "c.txt", data := some [4] }] }

/-- C4 witness: on the spec's example archive the selected cover is "A.JPG", and
the archive without eligible entries reports NotFoundError. -/
theorem cover_selects_lex_min_witness :
    ("A.JPG" ∈ sampleArchive.file_names.filter supported_images_filter
      ∧ load_cover_image sampleDecode sampleResize (ZipSource.ok sampleArchive)
          = cover_decode_entry sampleDecode sampleResize sampleArchive "A.JPG")
    ∧ load_cover_image sampleDecode sampleResize (ZipSource.ok sampleArchiveNoImages)
        = Except.error "Unable to find an image in the cbz file" := by
  have h2 := (cover_selects_lex_min sampleDecode sampleResize sampleArchive).2
    "A.JPG" (by decide)
  exact ⟨⟨h2.1, h2.2.2⟩,
    (cover_selects_lex_min sampleDecode sampleResize sampleArchiveNoImages).1 (by decide)⟩

/-! ### The indexed context (C8) -/

/-- C8: the indexed context built at open time holds the sorted eligible-name
list; its `len` is that list's length; and a decode-on-demand request fails with
"Selected image not found" (NotFoundError) exactly for indices outside
[0, count) — an in-range request either succeeds or fails with a different,
read-stage error. -/
theorem indexed_context_spec (a : ZipArchive) :
    let c := BookImageContext.new a (sortStrings (a.file_names.filter supported_images_filter))
    get_book_image_context (ZipSource.ok a) = Except.ok c
    ∧ c.len = (sortStrings (a.file_names.filter supported_images_filter)).length
    ∧ ∀ i : Nat, (load_image c i = Except.error "Selected image not found" ↔ c.len ≤ i) := by
  intro c
  refine ⟨rfl, rfl, ?_⟩
  intro i
  unfold load_image
  cases hg : c.filenames[i]? with
  | none =>
    have hlen : c.filenames.length ≤ i := List.getElem?_eq_none_iff.mp hg
    simp only [hg]
    constructor
    · intro _
      exact hlen
    · intro _
      trivial
  | some n =>
    have hlt : i < c.filenames.length := by
      rcases List.getElem?_eq_some.mp hg with ⟨h, -⟩
      exact h
    simp only [hg]
    constructor
    · intro h
      exfalso
      cases hb : c.archive.by_name n with
      | none =>
        simp only [hb] at h
        injection h with hmsg
        exact absurd hmsg (by decide)
      | some e =>
        cases hd : e.data with
        | none =>
          simp only [hb, hd] at h
          injection h with hmsg
          exact absurd hmsg (by decide)
        | some bs =>
          simp only [hb, hd] at h
          exact Except.noConfusion h
    · intro h
      exact absurd hlt (not_lt.mpr h)

/-- C8 witness: concrete in-range and out-of-range requests on the example
archive (two eligible pages). -/
theorem indexed_context_spec_witness :
    load_image (BookImageContext.new sampleArchive
        (sortStrings (sampleArchive.file_names.filter supported_images_filter))) 7
      = Except.error "Selected image not found" :=
  ((indexed_context_spec sampleArchive).2.2 7).mpr (by decide)

/-! ### Full-sequence loading (C1) -/

theorem filterMap_range_getElem {α β : Type} (ns : List α) (g : α → Option β) :
    (List.range ns.length).filterMap (fun i => (ns[i]?).bind g) = ns.filterMap g := by
  induction ns with
  | nil => rfl
  | cons a t ih =>
    rw [List.length_cons, List.range_succ_eq_map, List.filterMap_cons, List.filterMap_map]
    have hf : ((fun i => ((a :: t)[i]?).bind g) ∘ Nat.succ) = (fun i => (t[i]?).bind g) := by
      funext i
      simp
    rw [hf, ih]
    cases hga : g a with
    | none => simp [List.filterMap_cons, hga]
    | some b => simp [List.filterMap_cons, hga]

theorem load_image_toOption (a : ZipArchive) (ns : List String) (i : Nat) :
    (load_image (BookImageContext.new a ns) i).toOption
      = (ns[i]?).bind
          (fun n => ((a.by_name n).bind ZipEntry.data).map ImageHandle.from_memory) := by
  have hmatch : ∀ o : Option String,
      o.bind (fun n => ((a.by_name n).bind ZipEntry.data).map ImageHandle.from_memory)
        = match o with
          | none => none
          | some n => ((a.by_name n).bind ZipEntry.data).map ImageHandle.from_memory := by
    intro o
    cases o <;> rfl
  rw [hmatch]
  unfold load_image
  simp only [BookImageContext.new]
  cases hg : ns[i]? with
  | none => rfl
  | some n =>
    dsimp only
    cases hb : a.by_name n with
    | none => rfl
    | some e =>
      dsimp only [Option.bind]
      cases e.data <;> rfl

/-- With pairwise distinct names, `find?` by a member entry's name finds that
entry. -/
theorem find?_name_self (l : List ZipEntry) :
    (l.map (fun e => e.name)).Nodup →
    ∀ e ∈ l, l.find? (fun x => x.name == e.name) = some e := by
  induction l with
  | nil =>
    intro _ e he
    cases he
  | cons hd t ih =>
    intro hnd e he
    rw [List.map_cons, List.nodup_cons] at hnd
    rcases List.mem_cons.mp he with he1 | he2
    · subst he1
      rw [List.find?_cons_of_pos _ (by simp)]
    · have hne : (hd.name == e.name) = false := by
        rw [beq_eq_false_iff_ne]
        intro hc
        apply hnd.1
        rw [hc]
        exact List.mem_map_of_mem (fun x => x.name) he2
      rw [List.find?_cons_of_neg _ (by simp [hne])]
      exact ih hnd.2 e he2

/-- With pairwise distinct entry names, `by_name` on a member entry's name finds
that entry. -/
theorem by_name_self (a : ZipArchive) (hnd : a.file_names.Nodup) :
    ∀ e ∈ a.entries, a.by_name e.name = some e :=
  find?_name_self a.entries hnd

/-- C1: for an archive that opens and parses, `load_images` returns exactly the
images of the eligible entries whose bytes read successfully, in ascending
byte/codepoint order of raw filename, each wrapped at full resolution
(`from_memory` of the raw bytes, no resize); unreadable entries are skipped;
and the result is the "No images loaded" error (EmptyResultError) exactly when
no eligible entry yields bytes. -/
theorem load_images_spec (a : ZipArchive) (hnd : a.file_names.Nodup) :
    let sortedNames := sortStrings (a.file_names.filter supported_images_filter)
    let pages := sortedNames.filterMap
      (fun n => ((a.by_name n).bind ZipEntry.data).map ImageHandle.from_memory)
    List.Sorted StrLeP sortedNames
    ∧ (pages = [] ↔ ∀ e ∈ a.entries, supported_images_filter e.name = true → e.data = none)
    ∧ load_images (ZipSource.ok a)
        = (if pages.isEmpty then Except.error "No images loaded" else Except.ok pages) := by
  intro sortedNames pages
  refine ⟨List.sorted_insertionSort StrLeP _, ?_, ?_⟩
  · rw [List.filterMap_eq_nil_iff]
    constructor
    · intro h e he hsupp
      have hmem : e.name ∈ sortedNames := by
        show e.name ∈ sortStrings _
        unfold sortStrings
        rw [List.mem_insertionSort, List.mem_filter]
        exact ⟨List.mem_map_of_mem _ he, hsupp⟩
      have h2 := h e.name hmem
      rw [by_name_self a hnd e he] at h2
      simpa using h2
    · intro h n hn
      have hn2 : n ∈ a.file_names.filter supported_images_filter := by
        have hn' : n ∈ sortStrings (a.file_names.filter supported_images_filter) := hn
        unfold sortStrings at hn'
        rwa [List.mem_insertionSort] at hn'
      rw [List.mem_filter] at hn2
      obtain ⟨hmemname, hsupp⟩ := hn2
      obtain ⟨e, he, hename⟩ := List.mem_map.mp hmemname
      have hbn : a.by_name n = some e := by
        rw [← hename]
        exact by_name_self a hnd e he
      show ((a.by_name n).bind ZipEntry.data).map ImageHandle.from_memory = none
      rw [hbn]
      have hd : e.data = none := h e he (by rw [hename]; exact hsupp)
      simp [hd]
  · have hrfl : load_images (ZipSource.ok a)
        = (let images := (List.range sortedNames.length).filterMap
             (fun i => (load_image (BookImageContext.new a sortedNames) i).toOption);
           if images.isEmpty then Except.error "No images loaded" else Except.ok images) := rfl
    rw [hrfl]
    have hfun : (fun i => (load_image (BookImageContext.new a sortedNames) i).toOption)
        = (fun i => (sortedNames[i]?).bind
            (fun n => ((a.by_name n).bind ZipEntry.data).map ImageHandle.from_memory)) := by
      funext i
      exact load_image_toOption a sortedNames i
    rw [hfun, filterMap_range_getElem]

/-- C1 witness: on the example archive both eligible entries read, so
`load_images` returns their bytes in ascending filename order
("A.JPG" before "b.png"). -/
theorem load_images_spec_witness :
    load_images (ZipSource.ok sampleArchive)
      = Except.ok [ImageHandle.from_memory [2], ImageHandle.from_memory [1]] := by
  have h := (load_images_spec sampleArchive (by decide)).2.2
  rw [h]
  rfl

/-! ### Serialization round trip (C3) -/

theorem asOptStr_optStrToJson (o : Option String) :
    (optStrToJson o).asOptStr = Except.ok o := by
  cases o <;> rfl

theorem mapM_asStr_map (l : List String) :
    (l.map Json.str).mapM Json.asStr = Except.ok l := by
  induction l with
  | nil => rfl
  | cons a t ih =>
    rw [List.map_cons, List.mapM_cons, ih]
    rfl

theorem book_fromJson_toJson (b : Book) : Book.fromJson (Book.toJson b) = Except.ok b := by
  unfold Book.toJson Book.fromJson
  simp only [jsonField, List.find?, beq_self_eq_true, String.reduceBEq, bind, Except.bind,
    Json.asStr, asOptStr_optStrToJson, Json.asStrList, mapM_asStr_map]

theorem mapM_book_fromJson_map (l : List Book) :
    (l.map Book.toJson).mapM Book.fromJson = Except.ok l := by
  induction l with
  | nil => rfl
  | cons a t ih =>
    rw [List.map_cons, List.mapM_cons, ih, book_fromJson_toJson a]
    rfl

theorem libraryData_round_trip (d : LibraryData) :
    libraryDataFromJson (libraryDataToJson d) = Except.ok d := by
  unfold libraryDataToJson libraryDataFromJson
  simp only [jsonField, List.find?, beq_self_eq_true, String.reduceBEq, bind, Except.bind,
    Json.asStr, mapM_book_fromJson_map]

theorem read_write_self (w : World) (p : String) (c : Json) :
    (w.write p c).read p = some c := by
  unfold World.read World.write
  rw [List.find?_cons_of_pos _ (by simp)]
  rfl

theorem allocBooks_spec (bs : List Book) : ∀ st : Store,
    (∃ rest, (allocBooks st bs).1.cells = st.cells ++ rest)
    ∧ (allocBooks st bs).2.mapM (allocBooks st bs).1.read = some bs := by
  induction bs with
  | nil =>
    intro st
    exact ⟨⟨[], by simp [allocBooks]⟩, rfl⟩
  | cons b bs ih =>
    intro st
    obtain ⟨⟨rest, hcells⟩, hmapm⟩ := ih { cells := st.cells ++ [b] }
    have halloc : allocBooks st (b :: bs)
        = ((allocBooks { cells := st.cells ++ [b] } bs).1,
           st.cells.length :: (allocBooks { cells := st.cells ++ [b] } bs).2) := rfl
    rw [halloc]
    constructor
    · refine ⟨[b] ++ rest, ?_⟩
      rw [hcells]
      simp
    · have hread : (allocBooks { cells := st.cells ++ [b] } bs).1.read st.cells.length
          = some b := by
        unfold Store.read
        rw [hcells]
        simp only [List.append_assoc]
        rw [List.getElem?_append_right (le_refl _)]
        simp
      rw [List.mapM_cons, hread, hmapm]
      rfl

/-- C3: `save` then `load` round-trips: saving a library whose references
resolve to content `d` and loading the written file yields a library (over
freshly allocated cells) that resolves to exactly `d` — same book count, ids,
titles, authors, tags, and order. -/
theorem save_load_round_trip (st : Store) (lib : Library) (path : String) (w : World)
    (d : LibraryData) (st2 : Store)
    (hres : lib.resolve st = some d) (hw : w.writeFails = false) :
    (Library.save st lib path w).1 = Except.ok ()
    ∧ ∃ lib2 st2',
        Library.load path st2 (Library.save st lib path w).2
          = (Except.ok lib2, st2', (Library.save st lib path w).2)
        ∧ lib2.resolve st2' = some d := by
  have hbytes : lib.to_json_bytes st = Except.ok (libraryDataToJson d) := by
    unfold Library.to_json_bytes
    rw [hres]
  have hsave : Library.save st lib path w
      = (Except.ok (), w.write path (libraryDataToJson d)) := by
    unfold Library.save
    rw [hbytes, hw]
    simp
  rw [hsave]
  refine ⟨rfl, ?_⟩
  obtain ⟨⟨rest, hcells⟩, hmapm⟩ := allocBooks_spec d.books st2
  refine ⟨{ version := d.version, books := (allocBooks st2 d.books).2 },
    (allocBooks st2 d.books).1, ?_, ?_⟩
  · unfold Library.load
    rw [read_write_self]
    dsimp only
    rw [libraryData_round_trip]
  · unfold Library.resolve
    rw [hmapm]
    rfl

/-- C3 witness: a one-book library round-trips through a concrete world. -/
theorem save_load_round_trip_witness :
    (Library.save { cells := [Book.new "b-1" "a.cbz"] } { version := "1.0", books := [0] }
        "library.json" { files := [], writeFails := false }).1 = Except.ok ()
    ∧ ∃ lib2 st2',
        Library.load "library.json" { cells := [] }
            (Library.save { cells := [Book.new "b-1" "a.cbz"] } { version := "1.0", books := [0] }
              "library.json" { files := [], writeFails := false }).2
          = (Except.ok lib2, st2',
             (Library.save { cells := [Book.new "b-1" "a.cbz"] } { version := "1.0", books := [0] }
               "library.json" { files := [], writeFails := false }).2)
        ∧ lib2.resolve st2' = some { version := "1.0", books := [Book.new "b-1" "a.cbz"] } :=
  save_load_round_trip { cells := [Book.new "b-1" "a.cbz"] } { version := "1.0", books := [0] }
    "library.json" { files := [], writeFails := false }
    { version := "1.0", books := [Book.new "b-1" "a.cbz"] } { cells := [] } (by rfl) rfl

/-- C6: when the read fails, `load` builds the default library (version "1.0",
zero books), attempts to save it to `path`; if that save's write fails the load
fails with "Unable to save library file" (PersistError), otherwise it returns
the default library with the default document written at `path`. -/
theorem load_missing_file (path : String) (st : Store) (w : World)
    (hmiss : w.read path = none) :
    (w.writeFails = true →
      Library.load path st w = (Except.error "Unable to save library file", st, w))
    ∧ (w.writeFails = false →
      Library.load path st w
        = (Except.ok { version := "1.0", books := [] }, st,
           w.write path (libraryDataToJson { version := "1.0", books := [] }))) := by
  have hbytes : Library.to_json_bytes st Library.default.clone
      = Except.ok (libraryDataToJson { version := "1.0", books := [] }) := rfl
  constructor
  · intro hw
    have hsave : Library.save st Library.default.clone path w
        = (Except.error "Unable to save library file", w) := by
      unfold Library.save
      rw [hbytes, hw]
      simp
    unfold Library.load
    rw [hmiss]
    dsimp only
    rw [hsave]
  · intro hw
    have hsave : Library.save st Library.default.clone path w
        = (Except.ok (), w.write path (libraryDataToJson { version := "1.0", books := [] })) := by
      unfold Library.save
      rw [hbytes, hw]
      simp
    unfold Library.load
    rw [hmiss]
    dsimp only
    rw [hsave]
    rfl

/-- C6 witness: loading a missing path in a writable world persists and returns
the default library; in a write-failing world it reports PersistError. -/
theorem load_missing_file_witness :
    Library.load "library.json" { cells := [] } { files := [], writeFails := false }
      = (Except.ok { version := "1.0", books := [] }, { cells := [] },
         World.write { files := [], writeFails := false } "library.json"
           (libraryDataToJson { version := "1.0", books := [] }))
    ∧ Library.load "library.json" { cells := [] } { files := [], writeFails := true }
      = (Except.error "Unable to save library file", { cells := [] },
         { files := [], writeFails := true }) :=
  ⟨(load_missing_file "library.json" { cells := [] }
      { files := [], writeFails := false } rfl).2 rfl,
   (load_missing_file "library.json" { cells := [] }
      { files := [], writeFails := true } rfl).1 rfl⟩

/-- C7: when the read succeeds but the bytes do not parse as the persisted
document schema, `load` fails with "Unable to parse JSON file" (ParseError) and
performs no write: the world (and so the on-disk file) is returned unchanged. -/
theorem load_corrupt_file (path : String) (st : Store) (w : World) (content : Json)
    (e : String) (hread : w.read path = some content)
    (hbad : libraryDataFromJson content = Except.error e) :
    Library.load path st w = (Except.error "Unable to parse JSON file", st, w) := by
  unfold Library.load
  rw [hread]
  dsimp only
  rw [hbad]

/-- C7 witness: a file holding a non-object document fails to parse and the
world is unchanged. -/
theorem load_corrupt_file_witness :
    Library.load "library.json" { cells := [] }
        { files := [("library.json", Json.null)], writeFails := false }
      = (Except.error "Unable to parse JSON file", { cells := [] },
         { files := [("library.json", Json.null)], writeFails := false }) :=
  load_corrupt_file "library.json" { cells := [] }
    { files := [("library.json", Json.null)], writeFails := false } Json.null
    "expected an object" rfl rfl

/-! ### The save "snapshot" shares live book cells (C2) -/

/-- A one-book library used to exhibit the save/clone aliasing. -/
def c2book : Book :=
  { id := "b-1", author := none, path := "a.cbz", tags := [], title := none }

def c2store : Store := { cells := [c2book] }

def c2lib : Library := { version := "1.0", books := [0] }

/-- C2 counterexample: serializing the clone taken for save AFTER a book is
mutated through a previously obtained shared reference produces different
document bytes than at snapshot time: the mutation appears in the saved
document, because `Library::clone` clones the `Arc`s (aliases), not the books. -/
theorem save_snapshot_counterexample :
    (Library.clone c2lib).to_json_bytes
        (c2store.mutate 0 (fun bk => bk.set_title "Edited"))
      ≠ (Library.clone c2lib).to_json_bytes c2store := by
  intro h
  have h1 : (Library.clone c2lib).to_json_bytes
        (c2store.mutate 0 (fun bk => bk.set_title "Edited"))
      = Except.ok (libraryDataToJson
          { version := "1.0", books := [c2book.set_title "Edited"] }) := rfl
  have h2 : (Library.clone c2lib).to_json_bytes c2store
      = Except.ok (libraryDataToJson { version := "1.0", books := [c2book] }) := rfl
  rw [h1, h2] at h
  simp [libraryDataToJson, Book.toJson, c2book, Book.set_title, optStrToJson] at h

theorem read_mutate (st : Store) (r : BookRef) (b : Book) (f : Book → Book)
    (hb : st.read r = some b) (q : BookRef) :
    (st.mutate r f).read q = if q = r then some (f b) else st.read q := by
  unfold Store.mutate
  rw [hb]
  show Store.read { cells := st.cells.set r (f b) } q = _
  unfold Store.read
  by_cases hq : q = r
  · subst hq
    rw [if_pos rfl]
    obtain ⟨hlt, -⟩ := List.getElem?_eq_some.mp hb
    exact List.getElem?_set_self hlt
  · rw [if_neg hq]
    exact List.getElem?_set_ne (fun he => hq he.symm)

theorem mapM_read_mutate_exists (st : Store) (r : BookRef) (b : Book) (f : Book → Book)
    (hb : st.read r = some b) :
    ∀ (refs : List BookRef) (bs : List Book), refs.mapM st.read = some bs →
    ∃ bs2, refs.mapM (st.mutate r f).read = some bs2
      ∧ ∀ (j : Nat) (q : BookRef), refs[j]? = some q
          → bs2[j]? = (st.mutate r f).read q := by
  intro refs
  induction refs with
  | nil =>
    intro bs _
    refine ⟨[], rfl, ?_⟩
    intro j q hj
    simp at hj
  | cons a t ih =>
    intro bs h
    rw [List.mapM_cons] at h
    cases hra : st.read a with
    | none =>
      rw [hra] at h
      simp at h
    | some b0 =>
      rw [hra] at h
      cases hrt : t.mapM st.read with
      | none =>
        rw [hrt] at h
        simp at h
      | some bt =>
        obtain ⟨bs2t, hm2, hidx⟩ := ih bt hrt
        have hra2 : ∃ b1, (st.mutate r f).read a = some b1 := by
          rw [read_mutate st r b f hb a]
          by_cases ha : a = r
          · exact ⟨f b, by rw [if_pos ha]⟩
          · exact ⟨b0, by rw [if_neg ha]; exact hra⟩
        obtain ⟨b1, hb1⟩ := hra2
        refine ⟨b1 :: bs2t, ?_, ?_⟩
        · rw [List.mapM_cons, hb1, hm2]
          rfl
        · intro j q hj
          cases j with
          | zero =>
            have ha : a = q := by simpa using hj
            subst ha
            simpa using hb1.symm
          | succ k =>
            rw [List.getElem?_cons_succ]
            exact hidx k q (by simpa using hj)

/-- C2 amended: the clone taken for save copies the version and the vector of
shared references but aliases the same book cells, so a `Book` mutated through
a previously obtained shared reference before serialization DOES appear in the
produced document: the serialized document holds the mutated title at the
book's position. -/
theorem save_serializes_live_cells (st : Store) (lib : Library) (d : LibraryData)
    (i : Nat) (r : BookRef) (b : Book) (t : String)
    (hres : lib.resolve st = some d)
    (hi : lib.books[i]? = some r) (hb : st.read r = some b) :
    Library.clone lib = lib
    ∧ ∃ d2, (Library.clone lib).to_json_bytes (st.mutate r (fun bk => bk.set_title t))
        = Except.ok (libraryDataToJson d2)
      ∧ d2.books[i]? = some (b.set_title t) := by
  refine ⟨rfl, ?_⟩
  obtain ⟨bs, hm⟩ : ∃ bs, lib.books.mapM st.read = some bs := by
    unfold Library.resolve at hres
    cases hmm : lib.books.mapM st.read with
    | none =>
      rw [hmm] at hres
      simp at hres
    | some bs => exact ⟨bs, rfl⟩
  obtain ⟨bs2, hm2, hidx⟩ :=
    mapM_read_mutate_exists st r b (fun bk => bk.set_title t) hb lib.books bs hm
  refine ⟨{ version := lib.version, books := bs2 }, ?_, ?_⟩
  · unfold Library.clone Library.to_json_bytes Library.resolve
    rw [hm2]
    rfl
  · have hj := hidx i r hi
    rw [hj, read_mutate st r b _ hb r, if_pos rfl]

/-- C2 amended witness: the concrete one-book library. -/
theorem save_serializes_live_cells_witness :
    Library.clone c2lib = c2lib
    ∧ ∃ d2, (Library.clone c2lib).to_json_bytes
          (c2store.mutate 0 (fun bk => bk.set_title "Edited"))
        = Except.ok (libraryDataToJson d2)
      ∧ d2.books[0]? = some (c2book.set_title "Edited") :=
  save_serializes_live_cells c2store c2lib { version := "1.0", books := [c2book] }
    0 0 c2book "Edited" rfl rfl rfl
